import Mathlib

/-!
Verification of the conditional-formatting rule importer (cfImport.py).

The tool reads a tabular rule specification and applies conditional-formatting
rules to worksheets of an output workbook.  This file gives a shallow embedding
of its core transform: the color resolver (`parse_rgb`, `color_name_to_hex`,
`get_color_hex`), the column codec (`column_letter_to_index`), the rule-row
extraction, and the rule application engine (`apply_cf_rules`), together with
theorems settling the specification claims.

Modelling conventions: a spreadsheet cell value (as produced by iterating rows
with values-only access) is `Option String`, with `none` for an empty cell.
Python string operations used by the source are re-implemented as executable
Lean functions on character lists (`pyStrip` for strip, `pyReplace` for
replace, `splitComma` for splitting on commas, `pyInt?` for int(), and
`pyHexByte` for the 02X format specifier).  Python int() digit-grouping
underscores are not modelled; no input considered here contains them.
-/

namespace CfImport

/-- A cell value seen through values-only row iteration: `none` is an empty
cell, `some s` a text cell. -/
abbrev Cell := Option String

/-- Python truthiness of a cell value: `None` and the empty string are falsy. -/
def truthy : Cell → Bool
  | none => false
  | some s => decide (s ≠ "")

/-- Characters stripped by the str.strip method (ASCII whitespace). -/
def isPySpace (c : Char) : Bool :=
  c = ' ' || c = '\t' || c = '\n' || c = '\r' || c = '\x0b' || c = '\x0c'

/-- Model of the str.strip method: remove leading and trailing whitespace. -/
def pyStrip (s : String) : String :=
  String.mk (((s.data.dropWhile isPySpace).reverse.dropWhile isPySpace).reverse)

/-- The apostrophe character removed by the replace call in parse_rgb. -/
def quoteChar : Char := Char.ofNat 39

/-- Model of the replace call that deletes every apostrophe in the RGB text. -/
def removeQuotes (s : String) : String :=
  String.mk (s.data.filter (fun c => decide (c ≠ quoteChar)))

/-- Model of the str.split method with a comma separator: empty pieces are
kept, and splitting the empty string gives one empty piece. -/
def splitCommaAux : List Char → List Char → List String
  | [], cur => [String.mk cur.reverse]
  | c :: cs, cur =>
    if c = ',' then String.mk cur.reverse :: splitCommaAux cs []
    else splitCommaAux cs (c :: cur)

/-- Split a string on commas, Python style. -/
def splitComma (s : String) : List String :=
  splitCommaAux s.data []

/-- Numeric value of a decimal digit character, if it is one. -/
def digitVal (c : Char) : Option Nat :=
  if '0' ≤ c ∧ c ≤ '9' then some (c.toNat - 48) else none

/-- Accumulate decimal digits; any non-digit character poisons the result. -/
def digitsToNatAux : Option Nat → List Char → Option Nat
  | acc, [] => acc
  | acc, c :: cs =>
    match acc, digitVal c with
    | some a, some d => digitsToNatAux (some (a * 10 + d)) cs
    | _, _ => none

/-- Read a non-empty all-digit character list as a natural number. -/
def digitsToNat : List Char → Option Nat
  | [] => none
  | l => digitsToNatAux (some 0) l

/-- Model of the int() constructor on strings: strip whitespace, allow one
leading sign, then decimal digits. -/
def pyInt? (s : String) : Option Int :=
  match (pyStrip s).data with
  | [] => none
  | c :: rest =>
    if c = '+' then (digitsToNat rest).map Int.ofNat
    else if c = '-' then (digitsToNat rest).map (fun n => -(n : Int))
    else (digitsToNat (c :: rest)).map Int.ofNat

/-- Uppercase hexadecimal digit for a value below 16. -/
def hexDigitChar (n : Nat) : Char :=
  if n < 10 then Char.ofNat (48 + n) else Char.ofNat (55 + n)

/-- Fuel-driven most-significant-first hexadecimal digit list. -/
def natHexAux : Nat → Nat → List Char
  | 0, _ => []
  | fuel + 1, n =>
    if n < 16 then [hexDigitChar n]
    else natHexAux fuel (n / 16) ++ [hexDigitChar (n % 16)]

/-- Uppercase hexadecimal rendering of a natural number, no padding. -/
def hexUpper (n : Nat) : String :=
  String.mk (natHexAux (n + 1) n)

/-- Left-pad a string with zero characters up to the given width. -/
def padZero (width : Nat) (s : String) : String :=
  String.mk (List.replicate (width - s.data.length) '0') ++ s

/-- Model of the 02X format specifier on a Python int: minimum total width
two, zero fill after the sign, uppercase hexadecimal digits.  Out-of-range
values are not clamped: they simply render with more digits or a sign. -/
def pyHexByte (i : Int) : String :=
  if i < 0 then "-" ++ padZero 1 (hexUpper i.natAbs)
  else padZero 2 (hexUpper i.natAbs)

/-- The token extraction half of parse_rgb: reject empty or blank input,
delete apostrophes and strip, split on commas, and require exactly three
pieces that int() accepts.  A failing int() call is the only caught
exception, and it yields `none`. -/
def parse_rgb_triple (s : String) : Option (Int × Int × Int) :=
  if s = "" ∨ pyStrip s = "" then none
  else
    match splitComma (pyStrip (removeQuotes s)) with
    | [p1, p2, p3] =>
      match pyInt? p1, pyInt? p2, pyInt? p3 with
      | some r, some g, some b => some (r, g, b)
      | _, _, _ => none
    | _ => none

/-- Model of parse_rgb: format each parsed channel with the 02X specifier and
concatenate.  No range check is performed on the parsed integers. -/
def parse_rgb (s : String) : Option String :=
  match parse_rgb_triple s with
  | some (r, g, b) => some (pyHexByte r ++ pyHexByte g ++ pyHexByte b)
  | none => none

/-- The named-color table of color_name_to_hex, transcribed entry for entry. -/
def color_map : List (String × String) :=
  [("Aqua", "00FFFF"), ("Black", "000000"), ("Blue", "0000FF"),
   ("BlueGray", "666699"), ("BrightGreen", "00FF00"), ("Brown", "993300"),
   ("DarkBlue", "000080"), ("DarkGreen", "003300"), ("DarkRed", "800000"),
   ("DarkYellow", "808000"), ("DarkTeal", "003366"), ("Gold", "FFC000"),
   ("Green", "008000"), ("Gray25", "C0C0C0"), ("Gray40", "969696"),
   ("Gray50", "808080"), ("Gray80", "333333"), ("Grey", "808080"),
   ("Gray", "808080"), ("Indigo", "333399"), ("Lavender", "CC99FF"),
   ("LightBlue", "3366FF"), ("LightGray", "C0C0C0"), ("LightGreen", "CCFFCC"),
   ("LightOrange", "FF9900"), ("LightTurquoise", "CCFFFF"),
   ("LightYellow", "FFFF99"), ("Lime", "99CC00"), ("OliveGreen", "333300"),
   ("Orange", "FF6600"), ("PaleBlue", "99CCFF"), ("Pink", "FF00FF"),
   ("Plum", "993366"), ("Red", "FF0000"), ("Rose", "FF99CC"),
   ("SeaGreen", "339966"), ("SkyBlue", "00CCFF"), ("Tan", "FFCC99"),
   ("Teal", "008080"), ("Turquoise", "00FFFF"), ("Violet", "800080"),
   ("White", "FFFFFF"), ("Yellow", "FFFF00")]

/-- First-match association lookup, the dict get of the color table. -/
def assocFind (key : String) : List (String × String) → Option String
  | [] => none
  | e :: rest => if e.1 = key then some e.2 else assocFind key rest

/-- Model of color_name_to_hex: dictionary lookup, unknown names give None. -/
def color_name_to_hex (color_name : String) : Option String :=
  assocFind color_name color_map

/-- The name-based half of get_color_hex: a truthy, non-sentinel name is
looked up in the table; a truthy lookup result is returned. -/
def nameResolve (color_name : Cell) : Option String :=
  match color_name with
  | some n =>
    if n ≠ "" ∧ pyStrip n ≠ "" ∧ n ∉ (["RGB", "NoColor", ""] : List String) then
      match color_name_to_hex n with
      | some h => if h ≠ "" then some h else none
      | none => none
    else none
  | none => none

/-- Model of get_color_hex: a truthy RGB text is tried first through
parse_rgb, and a truthy parse result is returned at once; in every other
case control reaches the name-based path. -/
def get_color_hex (color_name rgb_string : Cell) : Option String :=
  let rgbRes : Option String :=
    match rgb_string with
    | some rs =>
      if rs ≠ "" ∧ pyStrip rs ≠ "" then
        match parse_rgb rs with
        | some h => if h ≠ "" then some h else none
        | none => none
      else none
    | none => none
  match rgbRes with
  | some h => some h
  | none => nameResolve color_name

/-- Model of column_letter_to_index: left-to-right base-26 fold with the
character value taken relative to the letter A (code point 65). -/
def column_letter_to_index (col : String) : Int :=
  col.data.foldl (fun index c => index * 26 + ((c.toNat : Int) - 65 + 1)) 0

/-- One parsed rule row, with the same field names as the source dictionary.
Cell-valued fields keep the raw cell; absent trailing fields were filled with
defaults at extraction time. -/
structure RuleRecord where
  start_col : Cell
  end_col : Cell
  formula : String
  stop_if_true : Bool
  bg_color : Cell
  bg_rgb : Cell
  font_color : Cell
  font_rgb : Cell
  number_format : Cell
  worksheet : Cell
deriving DecidableEq, Repr

/-- The guarded indexing used for the trailing fields: the cell when the row
is wide enough, the given default otherwise. -/
def cellOr (row : List Cell) (i : Nat) (dflt : Cell) : Cell :=
  if i < row.length then row.getD i none else dflt

/-- The formula field normalisation: a truthy cell keeps its text, anything
else becomes the empty string. -/
def cellString (c : Cell) : String :=
  if truthy c then c.getD "" else ""

/-- The stop-if-true extraction: a truthy fourth field is compared to the
single-character string Y, case sensitively; a falsy field gives false. -/
def stopFlag (c : Cell) : Bool :=
  if truthy c then decide (c = some "Y") else false

/-- Field extraction for a rule row.  Indices zero to three are read without
a width guard (the source indexes them directly); indices four to nine fall
back to their defaults when the row is narrower. -/
def recordOfRow (row : List Cell) : RuleRecord where
  start_col := row.getD 0 none
  end_col := row.getD 1 none
  formula := cellString (row.getD 2 none)
  stop_if_true := stopFlag (row.getD 3 none)
  bg_color := cellOr row 4 (some "")
  bg_rgb := cellOr row 5 (some "")
  font_color := cellOr row 6 (some "")
  font_rgb := cellOr row 7 (some "")
  number_format := cellOr row 8 (some "")
  worksheet := cellOr row 9 (some "Sheet1")

/-- The failure taxonomy of a run.  `indexError` models the uncaught Python
IndexError raised when a rule row with a truthy first field is narrower than
the four unconditionally indexed leading fields. -/
inductive RunError
  | missingRowSpec
  | missingSheet
  | indexError
  | emptyRuleSet
  | missingTarget
deriving DecidableEq, Repr

/-- Extraction of one data row: an empty tuple or a truthy-first-field row
narrower than four cells raises; a falsy first field silently drops the row;
otherwise the record is built. -/
def parseRow (row : List Cell) : Except RunError (Option RuleRecord) :=
  match row with
  | [] => .error .indexError
  | c0 :: _ =>
    if truthy c0 then
      if 4 ≤ row.length then .ok (some (recordOfRow row)) else .error .indexError
    else .ok none

/-- Extraction of the whole data-row list, in order, keeping only included
rows and propagating the first raised error. -/
def parseRules : List (List Cell) → Except RunError (List RuleRecord)
  | [] => .ok []
  | row :: rest =>
    match parseRow row with
    | .error e => .error e
    | .ok none => parseRules rest
    | .ok (some rec) =>
      match parseRules rest with
      | .error e => .error e
      | .ok recs => .ok (rec :: recs)

/-- Does the pattern occur at the head of the text? -/
def headMatches : List Char → List Char → Bool
  | [], _ => true
  | _ :: _, [] => false
  | p :: ps, c :: cs => decide (p = c) && headMatches ps cs

/-- Fuel-driven left-to-right non-overlapping replacement on character
lists; the fuel is at least the text length, and every step consumes at
least one character of a non-empty pattern. -/
def replaceFuel (pat rep : List Char) : Nat → List Char → List Char
  | 0, l => l
  | _ + 1, [] => []
  | fuel + 1, c :: cs =>
    if pat ≠ [] ∧ headMatches pat (c :: cs) then
      rep ++ replaceFuel pat rep fuel ((c :: cs).drop pat.length)
    else
      c :: replaceFuel pat rep fuel cs

/-- Model of the str.replace method with a non-empty pattern. -/
def pyReplace (s pat rep : String) : String :=
  String.mk (replaceFuel pat.data rep.data s.data.length s.data)

/-- One emitted conditional-formatting directive: the range string, the
substituted formula, the stop flag and the optional fill and font colors of
the expression rule attached to the worksheet. -/
structure Directive where
  rangeString : String
  formula : String
  stopIfTrue : Bool
  fill : Option String
  fontColor : Option String
deriving DecidableEq, Repr

/-- A worksheet is identified with its conditional-formatting rule list. -/
abbrev Worksheet := List Directive

/-- A workbook: sheets in order, each with its name and directive list. -/
abbrev Workbook := List (String × Worksheet)

/-- The text a Python f-string prints for a cell value: None renders as the
four-character string None. -/
def pyStr : Cell → String
  | none => "None"
  | some s => s

/-- The body of the per-record loop: substitute the placeholder, skip on an
empty formula, resolve both colors, skip when neither resolves, otherwise
build the directive with the range string of the group row bounds. -/
def processRecord (rowNumber : String) (startRow endRow : Nat) (r : RuleRecord) :
    Option Directive :=
  let formula := if r.formula ≠ "" then pyReplace r.formula "@ROW@" rowNumber else ""
  if formula = "" then none
  else
    let bg_hex := get_color_hex r.bg_color r.bg_rgb
    let font_hex := get_color_hex r.font_color r.font_rgb
    if ¬ truthy bg_hex ∧ ¬ truthy font_hex then none
    else some
      { rangeString := pyStr r.start_col ++ toString startRow ++ ":"
          ++ pyStr r.end_col ++ toString endRow
        formula := formula
        stopIfTrue := r.stop_if_true
        fill := if truthy bg_hex then bg_hex else none
        fontColor := if truthy font_hex then font_hex else none }

/-- One iteration of the per-record loop: an emitted directive is appended
and counted as applied, a skip only bumps the skipped counter. -/
def recordStep (rowNumber : String) (startRow endRow : Nat)
    (acc : Worksheet × Nat × Nat) (r : RuleRecord) : Worksheet × Nat × Nat :=
  match processRecord rowNumber startRow endRow r with
  | some d => (acc.1 ++ [d], acc.2.1 + 1, acc.2.2)
  | none => (acc.1, acc.2.1, acc.2.2 + 1)

/-- Run the per-record loop over a group, accumulating the directive list in
order together with the applied and skipped counters. -/
def processRecords (rowNumber : String) (startRow endRow : Nat)
    (rs : List RuleRecord) : Worksheet × Nat × Nat :=
  rs.foldl (recordStep rowNumber startRow endRow) ([], 0, 0)

/-- The worksheet name a record is grouped under: its truthy worksheet field,
or the default sheet label. -/
def sheetNameOf (r : RuleRecord) : String :=
  if truthy r.worksheet then r.worksheet.getD "" else "Sheet1"

/-- One iteration of the grouping loop over the key list: a fresh worksheet
name is appended, a seen one leaves the list unchanged. -/
def keyStep (ks : List String) (r : RuleRecord) : List String :=
  if sheetNameOf r ∈ ks then ks else ks ++ [sheetNameOf r]

/-- The distinct worksheet names in first-seen order, as the insertion order
of the grouping dictionary records them. -/
def groupKeys (rs : List RuleRecord) : List String :=
  rs.foldl keyStep []

/-- Grouping of records by worksheet name: first-seen key order, and within
each group the original record order. -/
def rulesBySheet (rs : List RuleRecord) : List (String × List RuleRecord) :=
  (groupKeys rs).map (fun s => (s, rs.filter (fun r => decide (sheetNameOf r = s))))

/-- The sheet names of a workbook, in sheet order. -/
def wbNames (wb : Workbook) : List String :=
  wb.map Prod.fst

/-- First-match lookup of a sheet by name. -/
def wbFind (name : String) : Workbook → Option Worksheet
  | [] => none
  | e :: rest => if e.1 = name then some e.2 else wbFind name rest

/-- Processing of one worksheet group: an existing sheet has its
conditional formatting cleared and then receives the group directives, so
its rule list is replaced outright; a missing sheet is created at the end of
the workbook with the group directives. -/
def stepWb (rowNumber : String) (startRow endRow : Nat) (wb : Workbook)
    (g : String × List RuleRecord) : Workbook :=
  let dirs := (processRecords rowNumber startRow endRow g.2).1
  if g.1 ∈ wbNames wb then
    wb.map (fun e => if e.1 = g.1 then (g.1, dirs) else e)
  else wb ++ [(g.1, dirs)]

/-- Processing of all worksheet groups in order. -/
def applyWb (rowNumber : String) (startRow endRow : Nat) (wb : Workbook)
    (gs : List (String × List RuleRecord)) : Workbook :=
  gs.foldl (stepWb rowNumber startRow endRow) wb

/-- One iteration of the counter accumulation over a group. -/
def countStep (rowNumber : String) (startRow endRow : Nat)
    (acc : Nat × Nat) (g : String × List RuleRecord) : Nat × Nat :=
  (acc.1 + (processRecords rowNumber startRow endRow g.2).2.1,
   acc.2 + (processRecords rowNumber startRow endRow g.2).2.2)

/-- The applied and skipped counters accumulated over all groups in order. -/
def countsOf (rowNumber : String) (startRow endRow : Nat)
    (gs : List (String × List RuleRecord)) : Nat × Nat :=
  gs.foldl (countStep rowNumber startRow endRow) (0, 0)

/-- The rules file: sheets by name, each a list of raw rows; the first row of
the rule sheet is the header and is never parsed. -/
abbrev RulesFile := List (String × List (List Cell))

/-- First-match lookup of a rules-file sheet by name. -/
def sheetFind (name : String) : RulesFile → Option (List (List Cell))
  | [] => none
  | e :: rest => if e.1 = name then some e.2 else sheetFind name rest

/-- The placeholder substitution value: the stripped explicit row-number text
when truthy, else the first-row number when truthy, else nothing. -/
def chooseRowNumber (rowNumberInput : String) (firstRow : Option Nat) :
    Option String :=
  if rowNumberInput ≠ "" ∧ pyStrip rowNumberInput ≠ "" then
    some (pyStrip rowNumberInput)
  else
    match firstRow with
    | some n => if n ≠ 0 then some (toString n) else none
    | none => none

/-- The row range used in range strings: both bounds verbatim when both are
truthy, else the fallback range one to one thousand. -/
def chooseRowRange (firstRow lastRow : Option Nat) : Nat × Nat :=
  match firstRow, lastRow with
  | some f, some l => if f ≠ 0 ∧ l ≠ 0 then (f, l) else (1, 1000)
  | _, _ => (1, 1000)

/-- The two apply modes offered by the mode selector. -/
inductive Mode
  | createNew
  | updateExisting
deriving DecidableEq, Repr

/-- The initial workbook: the loaded target in update mode (required), and a
workbook with its default sheet removed, that is no sheets, in create mode. -/
def initialWorkbook (mode : Mode) (targetFile : Option Workbook) :
    Except RunError Workbook :=
  match mode, targetFile with
  | .updateExisting, none => .error .missingTarget
  | .updateExisting, some wb => .ok wb
  | .createNew, _ => .ok []

/-- Everything apply_cf_rules returns besides the serialized bytes: the
workbook, both counters, the substitution value and the row bounds. -/
structure RunResult where
  workbook : Workbook
  rulesApplied : Nat
  rulesSkipped : Nat
  rowNumber : String
  startRow : Nat
  endRow : Nat
deriving DecidableEq, Repr

/-- Model of apply_cf_rules, in the check order of the source: substitution
value, rule-sheet lookup, row extraction, empty-rule-set check, mode and
target check, then grouping, row range and the application loop. -/
def apply_cf_rules (rulesFile : RulesFile) (targetFile : Option Workbook)
    (rowNumberInput : String) (firstRow lastRow : Option Nat) (mode : Mode) :
    Except RunError RunResult :=
  match chooseRowNumber rowNumberInput firstRow with
  | none => .error .missingRowSpec
  | some rowNumber =>
    match sheetFind "CF Rules" rulesFile with
    | none => .error .missingSheet
    | some sheetRows =>
      match parseRules (sheetRows.drop 1) with
      | .error e => .error e
      | .ok rules =>
        if rules.isEmpty then .error .emptyRuleSet
        else
          match initialWorkbook mode targetFile with
          | .error e => .error e
          | .ok wb0 =>
            .ok
              { workbook :=
                  applyWb rowNumber (chooseRowRange firstRow lastRow).1
                    (chooseRowRange firstRow lastRow).2 wb0 (rulesBySheet rules)
                rulesApplied :=
                  (countsOf rowNumber (chooseRowRange firstRow lastRow).1
                    (chooseRowRange firstRow lastRow).2 (rulesBySheet rules)).1
                rulesSkipped :=
                  (countsOf rowNumber (chooseRowRange firstRow lastRow).1
                    (chooseRowRange firstRow lastRow).2 (rulesBySheet rules)).2
                rowNumber := rowNumber
                startRow := (chooseRowRange firstRow lastRow).1
                endRow := (chooseRowRange firstRow lastRow).2 }

/-- Spec-side description of a color channel encoding: the uppercase
zero-padded two-hex-digit rendering of a byte, written directly as the two
digits of the value base sixteen.  Used to compare the code's formatting
against the specification's words. -/
def specHexByte (n : Nat) : String :=
  String.mk [hexDigitChar (n / 16), hexDigitChar (n % 16)]

/-- A worksheet group is settled in a workbook when its sheet exists and
every sheet of that name carries exactly the group's directives. -/
def settled (rowNumber : String) (startRow endRow : Nat) (w : Workbook)
    (g : String × List RuleRecord) : Prop :=
  g.1 ∈ wbNames w ∧
    ∀ e ∈ w, e.1 = g.1 → e = (g.1, (processRecords rowNumber startRow endRow g.2).1)

/-- The concrete rules file of the single-record scenario: a header row
followed by the record with start column A, end column C, the formula with
the placeholder, the stop token Y, the named background color Red, all other
fields empty and the worksheet name Sheet1. -/
def sampleRulesFile : RulesFile :=
  [("CF Rules",
    [[some "Start Column", some "End Column", some "Formula", some "Stop If True",
      some "BG Color Name", some "BG RGB", some "Font Color Name",
      some "Font RGB", some "Number Format", some "Worksheet Name"],
     [some "A", some "C", some "=A@ROW@>0", some "Y", some "Red",
      none, none, none, none, some "Sheet1"]])]

/-- A second concrete rules file: one record with a background color (to be
applied) and one record with a formula but no colors at all (to be skipped),
both on the worksheet Data. -/
def sampleRulesFile2 : RulesFile :=
  [("CF Rules",
    [[some "Start Column", some "End Column", some "Formula", some "Stop If True"],
     [some "A", some "B", some "=B@ROW@=1", none, some "Blue",
      none, none, none, none, some "Data"],
     [some "C", some "D", some "=D2>5", some "Y", none,
      none, none, none, none, some "Data"]])]

/-! ### Helper lemmas -/

/-- A step of the column fold keeps the accumulator positive when every
character code is at least that of the letter A. -/
theorem colStep_pos (l : List Char) (acc : Int)
    (hl : ∀ c ∈ l, 65 ≤ c.toNat) (ha : 0 < acc) :
    0 < l.foldl (fun index c => index * 26 + ((c.toNat : Int) - 65 + 1)) acc := by
  induction l generalizing acc with
  | nil => simpa using ha
  | cons c cs ih =>
    simp only [List.foldl_cons]
    apply ih
    · intro d hd
      exact hl d (List.mem_cons_of_mem _ hd)
    · have h65 : (65 : Int) ≤ (c.toNat : Int) := by
        exact_mod_cast hl c (List.mem_cons_self _ _)
      omega

/-- The stop flag extraction is true exactly on the cell holding Y. -/
theorem stopFlag_iff (c : Cell) : stopFlag c = true ↔ c = some "Y" := by
  cases c with
  | none => simp [stopFlag, truthy]
  | some s =>
    by_cases h : s = ""
    · subst h
      simp [stopFlag, truthy]
    · simp [stopFlag, truthy, h]

/-- Inversion of a successful row extraction: the record is the field
extraction of the row, the first field is truthy and the row has at least
four cells. -/
theorem parseRow_ok_some (row : List Cell) (rec : RuleRecord)
    (h : parseRow row = .ok (some rec)) :
    rec = recordOfRow row ∧ truthy (row.getD 0 none) = true ∧ 4 ≤ row.length := by
  cases row with
  | nil => simp [parseRow] at h
  | cons c0 rest =>
    simp only [parseRow] at h
    by_cases h0 : truthy c0
    · rw [if_pos h0] at h
      by_cases h4 : 4 ≤ (c0 :: rest).length
      · rw [if_pos h4] at h
        simp only [Except.ok.injEq, Option.some.injEq] at h
        exact ⟨h.symm, by simpa using h0, h4⟩
      · rw [if_neg h4] at h
        simp at h
    · rw [if_neg h0] at h
      simp at h

/-- A truthy first field on a row with fewer than four cells raises. -/
theorem parseRow_narrow (r : List Cell) (hr : truthy (r.getD 0 none) = true)
    (hl : r.length < 4) : parseRow r = .error .indexError := by
  cases r with
  | nil => simp [truthy] at hr
  | cons c0 rest =>
    simp only [List.getD_cons_zero] at hr
    simp only [parseRow, hr, if_true]
    rw [if_neg]
    omega

/-- An append whose left part is non-empty is non-empty. -/
theorem append_ne_empty_left (a b : String) (ha : a ≠ "") : a ++ b ≠ "" := by
  intro h
  apply ha
  rw [String.ext_iff] at h ⊢
  rw [String.data_append] at h
  rcases List.append_eq_nil.mp h with ⟨h1, -⟩
  exact h1

/-- The 02X rendering of an integer is never the empty string. -/
theorem pyHexByte_ne_empty (i : Int) : pyHexByte i ≠ "" := by
  unfold pyHexByte
  split
  · apply append_ne_empty_left
    intro h
    rw [String.ext_iff] at h
    simp at h
  · intro h
    rw [String.ext_iff] at h
    rw [padZero, String.data_append] at h
    rcases List.append_eq_nil.mp h with ⟨h1, h2⟩
    rw [h2] at h1
    simp at h1

/-- A successful RGB resolution is never the empty string. -/
theorem parse_rgb_ne_empty (s h : String) (hp : parse_rgb s = some h) : h ≠ "" := by
  unfold parse_rgb at hp
  cases ht : parse_rgb_triple s with
  | none => rw [ht] at hp; cases hp
  | some t =>
    obtain ⟨r, g, b⟩ := t
    rw [ht] at hp
    simp only [Option.some.injEq] at hp
    rw [← hp]
    exact append_ne_empty_left _ _ (append_ne_empty_left _ _ (pyHexByte_ne_empty r))

set_option maxRecDepth 4096 in
/-- The 02X rendering agrees with the specification's uppercase zero-padded
two-digit hexadecimal encoding on every byte value. -/
theorem pyHexByte_eq_specHexByte : ∀ n : Fin 256, pyHexByte (Int.ofNat n.val) = specHexByte n.val := by
  decide

/-! ### Claim theorems -/

/-- Claim C1: for the rule table with the single record (start A, end C,
formula with the placeholder, stop Y, background name Red, all other fields
empty, worksheet Sheet1), first row 13, last row 15, no explicit row text and
create-new mode, the run produces exactly one worksheet named Sheet1 with
exactly one directive of range A13:C15, formula with 13 substituted, stop
flag true, fill FF0000 and no font color, and counts one applied and zero
skipped. -/
theorem apply_cf_rules_single_rule_run :
    apply_cf_rules sampleRulesFile none "" (some 13) (some 15) .createNew =
      .ok
        { workbook :=
            [("Sheet1",
              [{ rangeString := "A13:C15", formula := "=A13>0", stopIfTrue := true,
                 fill := some "FF0000", fontColor := none }])]
          rulesApplied := 1
          rulesSkipped := 0
          rowNumber := "13"
          startRow := 13
          endRow := 15 } := rfl

/-- Claim C2 counterexample: the RGB text abc is non-empty and not parseable
as three comma-separated integers, yet the resolver does consult the
named-color table and returns the hex of Red instead of the unresolved
answer the claim requires. -/
theorem get_color_hex_malformed_rgb_counterexample :
    parse_rgb "abc" = none
    ∧ get_color_hex (some "Red") (some "abc") = some "FF0000" :=
  ⟨rfl, rfl⟩

/-- Claim C2 amended: when the RGB text is non-empty after stripping but
parse_rgb fails on it, the resolver falls through to the name-based path
(inside parse_rgb a throwing int() call is caught and already surfaces as a
failed parse); the name path is skipped exactly when RGB parsing returns a
color, in which case that color is the answer regardless of the name. -/
theorem get_color_hex_rgb_name_precedence (name : Cell) (rs : String)
    (h1 : rs ≠ "") (h2 : pyStrip rs ≠ "") :
    (parse_rgb rs = none → get_color_hex name (some rs) = nameResolve name)
    ∧ (∀ h, parse_rgb rs = some h → get_color_hex name (some rs) = some h) := by
  constructor
  · intro hp
    simp [get_color_hex, h1, h2, hp]
  · intro h hp
    have hne := parse_rgb_ne_empty rs h hp
    simp [get_color_hex, h1, h2, hp, hne]

/-- Witness for the amended claim C2 at concrete inputs: a malformed RGB
text falls through to the Red lookup, and a well-formed RGB text wins over
the name. -/
theorem get_color_hex_rgb_name_precedence_witness :
    get_color_hex (some "Red") (some "zz,1") = nameResolve (some "Red")
    ∧ get_color_hex (some "Red") (some "0,128,255") = some "0080FF" :=
  ⟨(get_color_hex_rgb_name_precedence (some "Red") "zz,1" (by decide) (by decide)).1
      (by decide),
   (get_color_hex_rgb_name_precedence (some "Red") "0,128,255" (by decide) (by decide)).2
      "0080FF" (by decide)⟩

/-- Claim C3 counterexample: the token 256 is out of the byte range, yet RGB
resolution does not return the unresolved answer the claim requires; the
value is rendered without clamping as a three-digit hexadecimal, giving a
seven-character result. -/
theorem parse_rgb_out_of_range_counterexample :
    parse_rgb "256,0,0" = some "1000000"
    ∧ parse_rgb "256,0,0" ≠ none
    ∧ parse_rgb "-1,0,0" = some "-10000" :=
  ⟨rfl, by decide, rfl⟩

/-- Claim C3 amended: an RGB text that parses as exactly three
comma-separated integers each within zero to 255 resolves to the uppercase
zero-padded two-hex-digit-per-channel concatenation, and a non-numeric token
makes resolution return the unresolved answer; but out-of-range integers are
not rejected: they are formatted without clamping (with extra digits or a
sign), never producing the unresolved answer. -/
theorem parse_rgb_valid_triples (s : String) (r g b : Int)
    (h : parse_rgb_triple s = some (r, g, b))
    (hr0 : 0 ≤ r) (hr1 : r ≤ 255) (hg0 : 0 ≤ g) (hg1 : g ≤ 255)
    (hb0 : 0 ≤ b) (hb1 : b ≤ 255) :
    parse_rgb s = some (specHexByte r.toNat ++ specHexByte g.toNat ++ specHexByte b.toNat)
    ∧ parse_rgb "255,0,0" = some "FF0000"
    ∧ parse_rgb "0,0,0" = some "000000"
    ∧ parse_rgb "12,34,zz" = none := by
  refine ⟨?_, rfl, rfl, rfl⟩
  have conv : ∀ x : Int, 0 ≤ x → x ≤ 255 → pyHexByte x = specHexByte x.toNat := by
    intro x hx0 hx1
    have hlt : x.toNat < 256 := by omega
    have hx := pyHexByte_eq_specHexByte ⟨x.toNat, hlt⟩
    have hcast : Int.ofNat x.toNat = x := by
      simpa using Int.toNat_of_nonneg hx0
    rwa [hcast] at hx
  have er := conv r hr0 hr1
  have eg := conv g hg0 hg1
  have eb := conv b hb0 hb1
  simp [parse_rgb, h, er, eg, eb]

/-- Witness for the amended claim C3 at a concrete in-range triple. -/
theorem parse_rgb_valid_triples_witness :
    parse_rgb "10,20,30" =
      some (specHexByte (Int.toNat 10) ++ specHexByte (Int.toNat 20)
        ++ specHexByte (Int.toNat 30))
    ∧ parse_rgb "255,0,0" = some "FF0000"
    ∧ parse_rgb "0,0,0" = some "000000"
    ∧ parse_rgb "12,34,zz" = none :=
  parse_rgb_valid_triples "10,20,30" 10 20 30 (by decide) (by decide) (by decide)
    (by decide) (by decide) (by decide) (by decide)

/-- Claim C4 counterexample: a one-cell row with a non-empty start column is
narrower than ten fields, and parsing it raises instead of succeeding with
defaults, because the source indexes the second through fourth fields with
no width guard. -/
theorem parse_narrow_row_counterexample :
    parseRules [[some "A"]] = .error .indexError
    ∧ truthy ([(some "A" : Cell)].getD 0 none) = true :=
  ⟨rfl, rfl⟩

/-- Claim C4 amended: a row with a non-empty first field parses without
error exactly when it has at least four cells; the missing trailing fields
among the fifth through tenth then take defaults (color and number-format
fields the empty string, worksheet name Sheet1, and the stop flag is false
whenever its cell is empty); a narrower row with a non-empty first field
raises an index error. -/
theorem parse_narrow_row_defaults (row : List Cell)
    (h0 : truthy (row.getD 0 none) = true) (h4 : 4 ≤ row.length) :
    parseRow row = .ok (some (recordOfRow row))
    ∧ (row.length ≤ 4 → (recordOfRow row).bg_color = some "")
    ∧ (row.length ≤ 5 → (recordOfRow row).bg_rgb = some "")
    ∧ (row.length ≤ 6 → (recordOfRow row).font_color = some "")
    ∧ (row.length ≤ 7 → (recordOfRow row).font_rgb = some "")
    ∧ (row.length ≤ 8 → (recordOfRow row).number_format = some "")
    ∧ (row.length ≤ 9 → (recordOfRow row).worksheet = some "Sheet1")
    ∧ (row.getD 3 none = none → (recordOfRow row).stop_if_true = false)
    ∧ (∀ r : List Cell, truthy (r.getD 0 none) = true → r.length < 4 →
        parseRow r = .error .indexError) := by
  obtain ⟨c0, rest, rfl⟩ : ∃ c0 rest, row = c0 :: rest := by
    cases row with
    | nil => simp at h4
    | cons a l => exact ⟨a, l, rfl⟩
  simp only [List.getD_cons_zero] at h0
  refine ⟨?_, ?_, ?_, ?_, ?_, ?_, ?_, ?_, parseRow_narrow⟩
  · have h4' : 3 ≤ rest.length := by
      simp only [List.length_cons] at h4
      omega
    simp [parseRow, h0, h4']
  · intro h
    rw [recordOfRow]
    simp only [cellOr]
    rw [if_neg]
    omega
  · intro h
    rw [recordOfRow]
    simp only [cellOr]
    rw [if_neg]
    omega
  · intro h
    rw [recordOfRow]
    simp only [cellOr]
    rw [if_neg]
    omega
  · intro h
    rw [recordOfRow]
    simp only [cellOr]
    rw [if_neg]
    omega
  · intro h
    rw [recordOfRow]
    simp only [cellOr]
    rw [if_neg]
    omega
  · intro h
    rw [recordOfRow]
    simp only [cellOr]
    rw [if_neg]
    omega
  · intro h
    show stopFlag ((c0 :: rest).getD 3 none) = false
    rw [h]
    rfl

/-- Witness for the amended claim C4: a four-cell row parses with every
trailing default, and a two-cell row raises. -/
theorem parse_narrow_row_defaults_witness :
    parseRow [some "A", some "B", some "=1@ROW@", none] =
      .ok (some (recordOfRow [some "A", some "B", some "=1@ROW@", none]))
    ∧ (recordOfRow [some "A", some "B", some "=1@ROW@", none]).bg_color = some ""
    ∧ (recordOfRow [some "A", some "B", some "=1@ROW@", none]).worksheet = some "Sheet1"
    ∧ (recordOfRow [some "A", some "B", some "=1@ROW@", none]).stop_if_true = false
    ∧ parseRow [some "B", some "C"] = .error .indexError := by
  have t := parse_narrow_row_defaults [some "A", some "B", some "=1@ROW@", none]
    (by decide) (by decide)
  exact ⟨t.1, t.2.1 (by decide), t.2.2.2.2.2.2.1 (by decide),
    t.2.2.2.2.2.2.2.1 (by decide),
    t.2.2.2.2.2.2.2.2 [some "B", some "C"] (by decide) (by decide)⟩

/-- Claim C9: the column codec maps a non-empty string of letters A through
Z to a positive integer by the left-to-right base-26 fold, with the quoted
values on A, Z, AA and AZ. -/
theorem column_letter_to_index_values (col : String) (h1 : col ≠ "")
    (h2 : ∀ c ∈ col.data, 65 ≤ c.toNat ∧ c.toNat ≤ 90) :
    0 < column_letter_to_index col
    ∧ column_letter_to_index "A" = 1
    ∧ column_letter_to_index "Z" = 26
    ∧ column_letter_to_index "AA" = 27
    ∧ column_letter_to_index "AZ" = 52 := by
  refine ⟨?_, rfl, rfl, rfl, rfl⟩
  obtain ⟨l⟩ := col
  obtain ⟨c, cs, rfl⟩ : ∃ c cs, l = c :: cs := by
    cases l with
    | nil => exact absurd rfl h1
    | cons a t => exact ⟨a, t, rfl⟩
  rw [column_letter_to_index]
  simp only [List.foldl_cons]
  apply colStep_pos
  · intro d hd
    exact (h2 d (List.mem_cons_of_mem _ hd)).1
  · have h65 : (65 : Int) ≤ (c.toNat : Int) := by
      exact_mod_cast (h2 c (List.mem_cons_self _ _)).1
    omega

/-- Witness for claim C9 at the column AZ. -/
theorem column_letter_to_index_values_witness :
    0 < column_letter_to_index "AZ"
    ∧ column_letter_to_index "A" = 1
    ∧ column_letter_to_index "Z" = 26
    ∧ column_letter_to_index "AA" = 27
    ∧ column_letter_to_index "AZ" = 52 :=
  column_letter_to_index_values "AZ" (by decide) (by decide)

/-- Claim C10: for a successfully parsed rule record, the stop-on-match flag
is true exactly when the fourth field holds the single-character string Y,
compared case-sensitively; lowercase y, the empty string and an empty cell
all give false. -/
theorem stop_if_true_iff_Y (row : List Cell) (rec : RuleRecord)
    (h : parseRow row = .ok (some rec)) :
    (rec.stop_if_true = true ↔ row.getD 3 none = some "Y")
    ∧ stopFlag (some "y") = false
    ∧ stopFlag (some "") = false
    ∧ stopFlag none = false := by
  obtain ⟨hrec, -, -⟩ := parseRow_ok_some row rec h
  subst hrec
  exact ⟨stopFlag_iff (row.getD 3 none), rfl, rfl, rfl⟩

/-- The per-record fold bumps exactly one counter per record. -/
theorem recordStep_counts (rn : String) (sr er : Nat) (rs : List RuleRecord) :
    ∀ init : Worksheet × Nat × Nat,
      (rs.foldl (recordStep rn sr er) init).2.1 + (rs.foldl (recordStep rn sr er) init).2.2
        = init.2.1 + init.2.2 + rs.length := by
  induction rs with
  | nil => intro init; simp
  | cons r rest ih =>
    intro init
    simp only [List.foldl_cons]
    rw [ih (recordStep rn sr er init r)]
    have hstep : (recordStep rn sr er init r).2.1 + (recordStep rn sr er init r).2.2
        = init.2.1 + init.2.2 + 1 := by
      unfold recordStep
      cases processRecord rn sr er r <;> simp <;> omega
    simp only [List.length_cons]
    omega

/-- The per-record fold emits one directive per applied record. -/
theorem recordStep_dirs (rn : String) (sr er : Nat) (rs : List RuleRecord) :
    ∀ init : Worksheet × Nat × Nat,
      (rs.foldl (recordStep rn sr er) init).1.length + init.2.1
        = (rs.foldl (recordStep rn sr er) init).2.1 + init.1.length := by
  induction rs with
  | nil =>
    intro init
    simp only [List.foldl_nil]
    omega
  | cons r rest ih =>
    intro init
    simp only [List.foldl_cons]
    have hih := ih (recordStep rn sr er init r)
    rcases h : processRecord rn sr er r with - | d
    · have e1 : recordStep rn sr er init r = (init.1, init.2.1, init.2.2 + 1) := by
        unfold recordStep
        rw [h]
      rw [e1] at hih ⊢
      simpa using hih
    · have e1 : recordStep rn sr er init r = (init.1 ++ [d], init.2.1 + 1, init.2.2) := by
        unfold recordStep
        rw [h]
      rw [e1] at hih ⊢
      simp only [List.length_append, List.length_singleton] at hih
      omega

/-- The applied and skipped counters of a group sum to the record count. -/
theorem processRecords_counts (rn : String) (sr er : Nat) (rs : List RuleRecord) :
    (processRecords rn sr er rs).2.1 + (processRecords rn sr er rs).2.2 = rs.length := by
  simpa [processRecords] using recordStep_counts rn sr er rs ([], 0, 0)

/-- The directive list of a group has exactly the applied count as length. -/
theorem processRecords_dirs_length (rn : String) (sr er : Nat) (rs : List RuleRecord) :
    (processRecords rn sr er rs).1.length = (processRecords rn sr er rs).2.1 := by
  simpa [processRecords] using recordStep_dirs rn sr er rs ([], 0, 0)

/-- The counter fold over the groups computes the component-wise sums. -/
theorem countsOf_eq_sums (rn : String) (sr er : Nat)
    (gs : List (String × List RuleRecord)) :
    ∀ init : Nat × Nat,
      gs.foldl (countStep rn sr er) init
        = (init.1 + (gs.map (fun g => (processRecords rn sr er g.2).2.1)).sum,
           init.2 + (gs.map (fun g => (processRecords rn sr er g.2).2.2)).sum) := by
  induction gs with
  | nil => intro init; simp
  | cons g rest ih =>
    intro init
    simp only [List.foldl_cons, List.map_cons, List.sum_cons]
    rw [ih (countStep rn sr er init g)]
    unfold countStep
    refine Prod.ext ?_ ?_ <;> simp <;> omega

/-- Sums of pointwise equal maps agree. -/
theorem sum_map_congr {α : Type} (l : List α) (f g : α → Nat)
    (h : ∀ a ∈ l, f a = g a) : (l.map f).sum = (l.map g).sum := by
  induction l with
  | nil => rfl
  | cons a rest ih =>
    simp only [List.map_cons, List.sum_cons]
    rw [h a (List.mem_cons_self _ _),
      ih (fun b hb => h b (List.mem_cons_of_mem _ hb))]

/-- The sum of a pointwise addition splits into two sums. -/
theorem sum_map_add {α : Type} (l : List α) (f g : α → Nat) :
    (l.map (fun a => f a + g a)).sum = (l.map f).sum + (l.map g).sum := by
  induction l with
  | nil => rfl
  | cons a rest ih =>
    simp only [List.map_cons, List.sum_cons]
    omega

/-- A filter and its complement split the length of a list. -/
theorem length_filter_split {α : Type} (p : α → Bool) (l : List α) :
    (l.filter p).length + (l.filter (fun a => !p a)).length = l.length := by
  induction l with
  | nil => rfl
  | cons a rest ih =>
    rcases h : p a <;> simp [List.filter_cons, h] <;> omega

/-- Filtering on a sheet name other than an excluded one passes through the
complement filter of the excluded name. -/
theorem filter_sheet_of_ne (rs : List RuleRecord) (k s : String) (hne : s ≠ k) :
    (rs.filter (fun r => !decide (sheetNameOf r = k))).filter
        (fun r => decide (sheetNameOf r = s))
      = rs.filter (fun r => decide (sheetNameOf r = s)) := by
  induction rs with
  | nil => rfl
  | cons r rest ih =>
    by_cases hs : sheetNameOf r = s
    · have hk : sheetNameOf r ≠ k := by rw [hs]; exact hne
      simp [List.filter_cons, hs, hk, hne, ih]
    · by_cases hk : sheetNameOf r = k
      · simp [List.filter_cons, hs, hk, hne, Ne.symm hne, ih]
      · simp [List.filter_cons, hs, hk, hne, ih]

/-- Filtering a list by each key of a duplicate-free list that covers every
element partitions its length. -/
theorem partition_length (ks : List String) :
    ∀ rs : List RuleRecord, ks.Nodup → (∀ r ∈ rs, sheetNameOf r ∈ ks) →
      ((ks.map (fun s => (rs.filter (fun r => decide (sheetNameOf r = s))).length)).sum
        = rs.length) := by
  induction ks with
  | nil =>
    intro rs _ hcov
    cases rs with
    | nil => rfl
    | cons r rest => exact absurd (hcov r (List.mem_cons_self _ _)) (List.not_mem_nil _)
  | cons k ks ih =>
    intro rs hnd hcov
    have hk_notin : k ∉ ks := (List.nodup_cons.mp hnd).1
    have hnd' : ks.Nodup := (List.nodup_cons.mp hnd).2
    simp only [List.map_cons, List.sum_cons]
    have hrest : ∀ s ∈ ks,
        (rs.filter (fun r => decide (sheetNameOf r = s))).length
          = ((rs.filter (fun r => !decide (sheetNameOf r = k))).filter
              (fun r => decide (sheetNameOf r = s))).length := by
      intro s hs
      have hne : s ≠ k := fun h => hk_notin (h ▸ hs)
      rw [filter_sheet_of_ne rs k s hne]
    have hcov' : ∀ r ∈ rs.filter (fun r => !decide (sheetNameOf r = k)),
        sheetNameOf r ∈ ks := by
      intro r hr
      rcases List.mem_filter.mp hr with ⟨hmem, hprop⟩
      have : sheetNameOf r ≠ k := by simpa using hprop
      rcases List.mem_cons.mp (hcov r hmem) with h | h
      · exact absurd h this
      · exact h
    calc (rs.filter (fun r => decide (sheetNameOf r = k))).length
          + (ks.map (fun s =>
              (rs.filter (fun r => decide (sheetNameOf r = s))).length)).sum
        = (rs.filter (fun r => decide (sheetNameOf r = k))).length
          + (ks.map (fun s =>
              ((rs.filter (fun r => !decide (sheetNameOf r = k))).filter
                (fun r => decide (sheetNameOf r = s))).length)).sum := by
          rw [sum_map_congr ks _ _ hrest]
      _ = (rs.filter (fun r => decide (sheetNameOf r = k))).length
          + (rs.filter (fun r => !decide (sheetNameOf r = k))).length := by
          rw [ih (rs.filter (fun r => !decide (sheetNameOf r = k))) hnd' hcov']
      _ = rs.length := length_filter_split _ rs

/-- The grouping key fold preserves freedom from duplicates. -/
theorem keyStep_fold_nodup (rs : List RuleRecord) :
    ∀ acc : List String, acc.Nodup → (rs.foldl keyStep acc).Nodup := by
  induction rs with
  | nil => intro acc h; simpa using h
  | cons r rest ih =>
    intro acc hacc
    simp only [List.foldl_cons]
    apply ih
    unfold keyStep
    by_cases hmem : sheetNameOf r ∈ acc
    · rw [if_pos hmem]
      exact hacc
    · rw [if_neg hmem]
      rw [List.nodup_append]
      refine ⟨hacc, List.nodup_singleton _, ?_⟩
      intro a ha hamem
      have : a = sheetNameOf r := by simpa using hamem
      exact hmem (this ▸ ha)

/-- The grouping key fold only ever extends the key list. -/
theorem keyStep_fold_mono (rs : List RuleRecord) :
    ∀ (acc : List String) (x : String), x ∈ acc → x ∈ rs.foldl keyStep acc := by
  induction rs with
  | nil => intro acc x h; simpa using h
  | cons r rest ih =>
    intro acc x hx
    simp only [List.foldl_cons]
    apply ih
    unfold keyStep
    by_cases hmem : sheetNameOf r ∈ acc
    · rw [if_pos hmem]; exact hx
    · rw [if_neg hmem]; exact List.mem_append_left _ hx

/-- Every record's sheet name occurs among the grouping keys. -/
theorem groupKeys_cover (rs : List RuleRecord) :
    ∀ r ∈ rs, sheetNameOf r ∈ groupKeys rs := by
  suffices h : ∀ acc, ∀ r ∈ rs, sheetNameOf r ∈ rs.foldl keyStep acc from h []
  induction rs with
  | nil => intro acc r h; cases h
  | cons q rest ih =>
    intro acc r hr
    rcases List.mem_cons.mp hr with rfl | hmem
    · simp only [List.foldl_cons]
      apply keyStep_fold_mono
      unfold keyStep
      by_cases hmem : sheetNameOf r ∈ acc
      · rw [if_pos hmem]; exact hmem
      · rw [if_neg hmem]; exact List.mem_append_right _ (List.mem_singleton_self _)
    · simp only [List.foldl_cons]
      exact ih (keyStep acc q) r hmem

/-- The grouping keys are free of duplicates. -/
theorem groupKeys_nodup (rs : List RuleRecord) : (groupKeys rs).Nodup :=
  keyStep_fold_nodup rs [] List.nodup_nil

/-- The names of the grouped record lists are exactly the grouping keys. -/
theorem rulesBySheet_keys (rs : List RuleRecord) :
    (rulesBySheet rs).map Prod.fst = groupKeys rs := by
  have hcomp : (Prod.fst ∘ fun s => (s, rs.filter (fun r => decide (sheetNameOf r = s))))
      = id := rfl
  rw [rulesBySheet, List.map_map, hcomp, List.map_id]

/-- The group sizes sum to the number of records. -/
theorem rulesBySheet_sizes (rules : List RuleRecord) :
    ((rulesBySheet rules).map (fun g => g.2.length)).sum = rules.length := by
  rw [rulesBySheet, List.map_map]
  exact partition_length (groupKeys rules) rules (groupKeys_nodup rules)
    (groupKeys_cover rules)

/-- Unfolding one group of the worksheet loop. -/
theorem applyWb_cons (rn : String) (sr er : Nat) (wb : Workbook)
    (g : String × List RuleRecord) (rest : List (String × List RuleRecord)) :
    applyWb rn sr er wb (g :: rest) = applyWb rn sr er (stepWb rn sr er wb g) rest :=
  rfl

/-- Applying groups whose names are all fresh for the workbook appends one
sheet per group carrying exactly the group directives. -/
theorem applyWb_fresh (rn : String) (sr er : Nat)
    (gs : List (String × List RuleRecord)) :
    ∀ wb : Workbook, (∀ g ∈ gs, g.1 ∉ wbNames wb) → (gs.map Prod.fst).Nodup →
      applyWb rn sr er wb gs
        = wb ++ gs.map (fun g => (g.1, (processRecords rn sr er g.2).1)) := by
  induction gs with
  | nil => intro wb _ _; simp [applyWb]
  | cons g rest ih =>
    intro wb hfresh hnd
    have hg : g.1 ∉ wbNames wb := hfresh g (List.mem_cons_self _ _)
    have hstep : stepWb rn sr er wb g
        = wb ++ [(g.1, (processRecords rn sr er g.2).1)] := by
      unfold stepWb
      rw [if_neg hg]
    have hfresh' : ∀ g' ∈ rest,
        g'.1 ∉ wbNames (wb ++ [(g.1, (processRecords rn sr er g.2).1)]) := by
      intro g' hg' hmem
      rw [wbNames, List.map_append] at hmem
      rcases List.mem_append.mp hmem with h | h
      · exact hfresh g' (List.mem_cons_of_mem _ hg') h
      · have heq : g'.1 = g.1 := by simpa using h
        have hnotin : g.1 ∉ rest.map Prod.fst := (List.nodup_cons.mp hnd).1
        exact hnotin (heq ▸ List.mem_map_of_mem Prod.fst hg')
    rw [applyWb_cons, hstep,
      ih (wb ++ [(g.1, (processRecords rn sr er g.2).1)]) hfresh'
        (List.nodup_cons.mp hnd).2,
      List.append_assoc]
    rfl

/-- Inversion of a successful run into its pipeline stages and result
components. -/
theorem apply_ok_inv (rf : RulesFile) (tf : Option Workbook) (rni : String)
    (fr lr : Option Nat) (mode : Mode) (res : RunResult)
    (h : apply_cf_rules rf tf rni fr lr mode = .ok res) :
    ∃ rn rows rules wb0,
      chooseRowNumber rni fr = some rn
      ∧ sheetFind "CF Rules" rf = some rows
      ∧ parseRules (rows.drop 1) = .ok rules
      ∧ rules.isEmpty = false
      ∧ initialWorkbook mode tf = .ok wb0
      ∧ res = { workbook := applyWb rn (chooseRowRange fr lr).1 (chooseRowRange fr lr).2
                  wb0 (rulesBySheet rules)
                rulesApplied := (countsOf rn (chooseRowRange fr lr).1
                  (chooseRowRange fr lr).2 (rulesBySheet rules)).1
                rulesSkipped := (countsOf rn (chooseRowRange fr lr).1
                  (chooseRowRange fr lr).2 (rulesBySheet rules)).2
                rowNumber := rn
                startRow := (chooseRowRange fr lr).1
                endRow := (chooseRowRange fr lr).2 } := by
  unfold apply_cf_rules at h
  split at h
  · simp at h
  next rn hrn =>
    split at h
    · simp at h
    next rows hrows =>
      split at h
      · simp at h
      next rules hrules =>
        split at h
        · simp at h
        next hne =>
          split at h
          · simp at h
          next wb0 hwb0 =>
            exact ⟨rn, rows, rules, wb0, hrn, hrows, hrules, by simpa using hne,
              hwb0, (Except.ok.inj h).symm⟩

/-- Inversion of a dropped row: only a falsy first field drops a row. -/
theorem parseRow_ok_none (row : List Cell) (h : parseRow row = .ok none) :
    truthy (row.getD 0 none) = false := by
  cases row with
  | nil => simp [parseRow] at h
  | cons c0 rest =>
    simp only [parseRow] at h
    by_cases h0 : truthy c0
    · rw [if_pos h0] at h
      split at h <;> simp at h
    · simpa using Bool.not_eq_true _ |>.mp h0

/-- A successful extraction of a row list returns exactly the records of the
rows with truthy first fields, in order. -/
theorem parseRules_ok_filter (rows : List (List Cell)) (rules : List RuleRecord)
    (h : parseRules rows = .ok rules) :
    rules = (rows.filter (fun r => truthy (r.getD 0 none))).map recordOfRow := by
  induction rows generalizing rules with
  | nil =>
    simp only [parseRules, Except.ok.injEq] at h
    simp [← h]
  | cons row rest ih =>
    simp only [parseRules] at h
    cases hr : parseRow row with
    | error e => rw [hr] at h; cases h
    | ok o =>
      rw [hr] at h
      cases o with
      | none =>
        have hfalse := parseRow_ok_none row hr
        rw [List.filter_cons, hfalse]
        simpa using ih rules h
      | some rec =>
        obtain ⟨hrec, h0, -⟩ := parseRow_ok_some row rec hr
        cases hp : parseRules rest with
        | error e => rw [hp] at h; cases h
        | ok recs =>
          rw [hp] at h
          simp only [Except.ok.injEq] at h
          rw [List.filter_cons, h0]
          simp only [if_true, List.map_cons]
          rw [← h, hrec, ih recs hp]

/-- A row list whose rows are all non-empty with falsy first fields parses
to the empty record list without error. -/
theorem parseRules_all_dropped (rows : List (List Cell))
    (h1 : ∀ r ∈ rows, r ≠ []) (h2 : ∀ r ∈ rows, truthy (r.getD 0 none) = false) :
    parseRules rows = .ok [] := by
  induction rows with
  | nil => rfl
  | cons row rest ih =>
    have hrow : parseRow row = .ok none := by
      cases row with
      | nil => exact absurd rfl (h1 [] (List.mem_cons_self _ _))
      | cons c0 t =>
        have := h2 (c0 :: t) (List.mem_cons_self _ _)
        simp only [List.getD_cons_zero] at this
        simp [parseRow, this]
    simp only [parseRules, hrow]
    exact ih (fun r hr => h1 r (List.mem_cons_of_mem _ hr))
      (fun r hr => h2 r (List.mem_cons_of_mem _ hr))

/-- Claim C7: extraction includes a data row exactly when its first field is
non-empty and non-null; rows with a falsy start column are silently dropped
without error, and a table whose data rows all have a falsy start column
makes the run fail with the empty-rule-set error. -/
theorem parse_start_column_filter (rows : List (List Cell)) :
    (∀ rules, parseRules rows = .ok rules →
      rules = (rows.filter (fun r => truthy (r.getD 0 none))).map recordOfRow)
    ∧ (∀ r : List Cell, r ≠ [] → truthy (r.getD 0 none) = false →
        parseRow r = .ok none)
    ∧ ((∀ r ∈ rows, r ≠ []) → (∀ r ∈ rows, truthy (r.getD 0 none) = false) →
        parseRules rows = .ok [])
    ∧ (∀ (hdr : List Cell) (tf : Option Workbook) (fr lr : Option Nat) (mode : Mode),
        (∀ r ∈ rows, r ≠ []) → (∀ r ∈ rows, truthy (r.getD 0 none) = false) →
        apply_cf_rules [("CF Rules", hdr :: rows)] tf "1" fr lr mode =
          .error .emptyRuleSet) := by
  refine ⟨parseRules_ok_filter rows, ?_, parseRules_all_dropped rows, ?_⟩
  · intro r hne hfalse
    cases r with
    | nil => exact absurd rfl hne
    | cons c0 t =>
      simp only [List.getD_cons_zero] at hfalse
      simp [parseRow, hfalse]
  · intro hdr tf fr lr mode h1 h2
    have hp := parseRules_all_dropped rows h1 h2
    have hc : chooseRowNumber "1" fr = some "1" := rfl
    have hs : sheetFind "CF Rules" [("CF Rules", hdr :: rows)] = some (hdr :: rows) :=
      rfl
    simp [apply_cf_rules, hc, hs, hp]

/-- Witness for claim C7: a concrete blank-start row is dropped, and a table
of two such rows yields the empty-rule-set error. -/
theorem parse_start_column_filter_witness :
    (∀ rules, parseRules [[some "", none], [none, some "x"]] = .ok rules →
      rules = ([[some "", none], [none, some "x"]].filter
        (fun r => truthy (r.getD 0 none))).map recordOfRow)
    ∧ parseRow [some "", some "B"] = .ok none
    ∧ parseRules [[some "", none], [none, some "x"]] = .ok []
    ∧ apply_cf_rules [("CF Rules", [[some "head"], [some "", none], [none, some "x"]])]
        none "1" none none .createNew = .error .emptyRuleSet := by
  have t := parse_start_column_filter [[some "", none], [none, some "x"]]
  exact ⟨t.1, t.2.1 [some "", some "B"] (by decide) (by decide),
    t.2.2.1 (by decide) (by decide),
    t.2.2.2 [some "head"] none none none .createNew (by decide) (by decide)⟩

/-- Claim C8: in every run, each parsed rule record is counted exactly once
(applied plus skipped equals the number of parsed records); in create mode
the output worksheets carry exactly as many directives as records counted
applied; and a record whose substituted formula is empty, or whose two color
fields both resolve to unresolved, is skipped and emits no directive. -/
theorem counters_partition_invariant (rf : RulesFile) (tf : Option Workbook)
    (rni : String) (fr lr : Option Nat) (mode : Mode) (res : RunResult)
    (rows : List (List Cell)) (rules : List RuleRecord)
    (hsheet : sheetFind "CF Rules" rf = some rows)
    (hparse : parseRules (rows.drop 1) = .ok rules)
    (hrun : apply_cf_rules rf tf rni fr lr mode = .ok res) :
    res.rulesApplied + res.rulesSkipped = rules.length
    ∧ (mode = .createNew →
        (res.workbook.map (fun e => e.2.length)).sum = res.rulesApplied)
    ∧ (∀ (rn2 : String) (sr2 er2 : Nat) (r : RuleRecord),
        ((if r.formula ≠ "" then pyReplace r.formula "@ROW@" rn2 else "") = ""
          ∨ (truthy (get_color_hex r.bg_color r.bg_rgb) = false
            ∧ truthy (get_color_hex r.font_color r.font_rgb) = false)) →
        processRecord rn2 sr2 er2 r = none) := by
  obtain ⟨rn, rows2, rules2, wb0, hrn, hrows2, hrules2, hne, hwb0, hres⟩ :=
    apply_ok_inv rf tf rni fr lr mode res hrun
  have hrw : rows2 = rows := Option.some.inj (hrows2.symm.trans hsheet)
  rw [hrw] at hrules2
  have hru : rules2 = rules := Except.ok.inj (hrules2.symm.trans hparse)
  rw [hru] at hres
  subst hres
  refine ⟨?_, ?_, ?_⟩
  · show (countsOf rn (chooseRowRange fr lr).1 (chooseRowRange fr lr).2
        (rulesBySheet rules)).1
      + (countsOf rn (chooseRowRange fr lr).1 (chooseRowRange fr lr).2
        (rulesBySheet rules)).2 = rules.length
    rw [countsOf, countsOf_eq_sums]
    simp only [Nat.zero_add]
    rw [← sum_map_add]
    rw [sum_map_congr (rulesBySheet rules) _ (fun g => g.2.length)
      (fun g _ => processRecords_counts rn _ _ g.2)]
    exact rulesBySheet_sizes rules
  · intro hmode
    subst hmode
    have hwb : wb0 = [] := by
      simpa [initialWorkbook] using hwb0
    subst hwb
    show ((applyWb rn (chooseRowRange fr lr).1 (chooseRowRange fr lr).2 []
        (rulesBySheet rules)).map (fun e => e.2.length)).sum
      = (countsOf rn (chooseRowRange fr lr).1 (chooseRowRange fr lr).2
        (rulesBySheet rules)).1
    rw [applyWb_fresh rn _ _ (rulesBySheet rules) [] (by intro g _ h; simp [wbNames] at h)
      (by rw [rulesBySheet_keys]; exact groupKeys_nodup rules)]
    rw [List.nil_append, List.map_map]
    rw [countsOf, countsOf_eq_sums]
    simp only [Nat.zero_add]
    exact sum_map_congr (rulesBySheet rules) _ _
      (fun g _ => processRecords_dirs_length rn _ _ g.2)
  · intro rn2 sr2 er2 r hcond
    rcases hcond with hf | ⟨hb, hfo⟩
    · simp [processRecord, hf]
    · by_cases hf : (if r.formula ≠ "" then pyReplace r.formula "@ROW@" rn2 else "") = ""
      · simp [processRecord, hf]
      · simp [processRecord, hf, hb, hfo]

/-- Witness for claim C8 on the two-record table: one record applied, one
skipped, their sum the record count, the single output sheet carrying one
directive, and a concrete empty-formula record skipping. -/
theorem counters_partition_invariant_witness :
    (RunResult.rulesApplied
        { workbook :=
            [("Data",
              [{ rangeString := "A1:B1000", formula := "=B4=1", stopIfTrue := false,
                 fill := some "0000FF", fontColor := none }])]
          rulesApplied := 1
          rulesSkipped := 1
          rowNumber := "4"
          startRow := 1
          endRow := 1000 }
      + RunResult.rulesSkipped
        { workbook :=
            [("Data",
              [{ rangeString := "A1:B1000", formula := "=B4=1", stopIfTrue := false,
                 fill := some "0000FF", fontColor := none }])]
          rulesApplied := 1
          rulesSkipped := 1
          rowNumber := "4"
          startRow := 1
          endRow := 1000 }
      = [recordOfRow [some "A", some "B", some "=B@ROW@=1", none, some "Blue",
          none, none, none, none, some "Data"],
         recordOfRow [some "C", some "D", some "=D2>5", some "Y", none,
          none, none, none, none, some "Data"]].length)
    ∧ processRecord "9" 1 2 (recordOfRow [some "X", some "Z", some "", none]) = none := by
  have t := counters_partition_invariant sampleRulesFile2 none "4" none none .createNew
    { workbook :=
        [("Data",
          [{ rangeString := "A1:B1000", formula := "=B4=1", stopIfTrue := false,
             fill := some "0000FF", fontColor := none }])]
      rulesApplied := 1
      rulesSkipped := 1
      rowNumber := "4"
      startRow := 1
      endRow := 1000 }
    [[some "Start Column", some "End Column", some "Formula", some "Stop If True"],
     [some "A", some "B", some "=B@ROW@=1", none, some "Blue",
      none, none, none, none, some "Data"],
     [some "C", some "D", some "=D2>5", some "Y", none,
      none, none, none, none, some "Data"]]
    [recordOfRow [some "A", some "B", some "=B@ROW@=1", none, some "Blue",
      none, none, none, none, some "Data"],
     recordOfRow [some "C", some "D", some "=D2>5", some "Y", none,
      none, none, none, none, some "Data"]]
    rfl rfl rfl
  exact ⟨t.1, t.2.2 "9" 1 2 _ (Or.inl (by decide))⟩

/-- Replacing the sheets of one name leaves the workbook sheet names
unchanged. -/
theorem wbNames_replace (wb : Workbook) (k : String) (dirs : Worksheet) :
    wbNames (wb.map (fun e => if e.1 = k then (k, dirs) else e)) = wbNames wb := by
  induction wb with
  | nil => rfl
  | cons e rest ih =>
    simp only [wbNames, List.map_cons] at ih ⊢
    refine congrArg₂ List.cons ?_ ih
    by_cases he : e.1 = k
    · rw [if_pos he]
      exact he.symm
    · rw [if_neg he]

/-- Replacement by sheet name is the identity on a workbook whose sheets of
that name already hold the replacement. -/
theorem map_replace_id (w : Workbook) (k : String) (dirs : Worksheet)
    (hall : ∀ e ∈ w, e.1 = k → e = (k, dirs)) :
    w.map (fun e => if e.1 = k then (k, dirs) else e) = w := by
  induction w with
  | nil => rfl
  | cons e rest ih =>
    simp only [List.map_cons]
    refine congrArg₂ List.cons ?_
      (ih (fun a ha hk => hall a (List.mem_cons_of_mem _ ha) hk))
    by_cases he : e.1 = k
    · rw [if_pos he]
      exact (hall e (List.mem_cons_self _ _) he).symm
    · rw [if_neg he]

/-- After processing a group, that group is settled: its sheet exists and
carries exactly the group directives. -/
theorem settled_stepWb (rn : String) (sr er : Nat) (w : Workbook)
    (g : String × List RuleRecord) :
    settled rn sr er (stepWb rn sr er w g) g := by
  simp only [settled, stepWb]
  by_cases hk : g.1 ∈ wbNames w
  · rw [if_pos hk]
    constructor
    · rw [wbNames_replace]
      exact hk
    · intro e he hfst
      obtain ⟨a, ha, rfl⟩ := List.mem_map.mp he
      by_cases hak : a.1 = g.1
      · rw [if_pos hak]
      · rw [if_neg hak] at hfst ⊢
        exact absurd hfst hak
  · rw [if_neg hk]
    constructor
    · rw [wbNames, List.map_append]
      exact List.mem_append_right _ (by simp)
    · intro e he hfst
      rcases List.mem_append.mp he with h | h
      · have hin := List.mem_map_of_mem Prod.fst h
        rw [hfst] at hin
        exact absurd hin hk
      · simpa using h

/-- Processing a group with a different name preserves settledness. -/
theorem settled_stepWb_other (rn : String) (sr er : Nat) (w : Workbook)
    (g g' : String × List RuleRecord) (hne : g'.1 ≠ g.1)
    (hs : settled rn sr er w g') :
    settled rn sr er (stepWb rn sr er w g) g' := by
  obtain ⟨hmem, hall⟩ := hs
  simp only [settled, stepWb]
  by_cases hk : g.1 ∈ wbNames w
  · rw [if_pos hk]
    constructor
    · rw [wbNames_replace]
      exact hmem
    · intro e he hfst
      obtain ⟨a, ha, rfl⟩ := List.mem_map.mp he
      by_cases hak : a.1 = g.1
      · rw [if_pos hak] at hfst
        exact absurd hfst.symm hne
      · rw [if_neg hak] at hfst ⊢
        exact hall a ha hfst
  · rw [if_neg hk]
    constructor
    · rw [wbNames, List.map_append]
      exact List.mem_append_left _ hmem
    · intro e he hfst
      rcases List.mem_append.mp he with h | h
      · exact hall e h hfst
      · have he2 : e = (g.1, (processRecords rn sr er g.2).1) := by simpa using h
        rw [he2] at hfst
        exact absurd hfst.symm hne

/-- Processing a settled group leaves the workbook unchanged. -/
theorem stepWb_settled_fix (rn : String) (sr er : Nat) (w : Workbook)
    (g : String × List RuleRecord) (hs : settled rn sr er w g) :
    stepWb rn sr er w g = w := by
  obtain ⟨hmem, hall⟩ := hs
  simp only [stepWb]
  rw [if_pos hmem]
  exact map_replace_id w g.1 _ hall

/-- Processing groups of other names preserves settledness. -/
theorem settled_fold_other (rn : String) (sr er : Nat)
    (gs : List (String × List RuleRecord)) :
    ∀ (w : Workbook) (g' : String × List RuleRecord),
      (∀ p ∈ gs, p.1 ≠ g'.1) → settled rn sr er w g' →
      settled rn sr er (applyWb rn sr er w gs) g' := by
  induction gs with
  | nil => intro w g' _ hs; simpa [applyWb] using hs
  | cons g rest ih =>
    intro w g' hne hs
    rw [applyWb_cons]
    exact ih (stepWb rn sr er w g) g'
      (fun p hp => hne p (List.mem_cons_of_mem _ hp))
      (settled_stepWb_other rn sr er w g g'
        (Ne.symm (hne g (List.mem_cons_self _ _))) hs)

/-- After processing all groups of duplicate-free names, every group is
settled. -/
theorem settled_fold_all (rn : String) (sr er : Nat)
    (gs : List (String × List RuleRecord)) :
    ∀ w : Workbook, (gs.map Prod.fst).Nodup →
      ∀ g ∈ gs, settled rn sr er (applyWb rn sr er w gs) g := by
  induction gs with
  | nil => intro w _ g hg; cases hg
  | cons q rest ih =>
    intro w hnd g hg
    rw [applyWb_cons]
    rcases List.mem_cons.mp hg with rfl | hmem
    · apply settled_fold_other
      · intro p hp hpe
        exact (List.nodup_cons.mp hnd).1 (hpe ▸ List.mem_map_of_mem Prod.fst hp)
      · exact settled_stepWb rn sr er w g
    · exact ih (stepWb rn sr er w q) (List.nodup_cons.mp hnd).2 g hmem

/-- Processing groups that are all settled leaves the workbook unchanged. -/
theorem applyWb_settled_fix (rn : String) (sr er : Nat)
    (gs : List (String × List RuleRecord)) :
    ∀ w : Workbook, (∀ g ∈ gs, settled rn sr er w g) →
      applyWb rn sr er w gs = w := by
  induction gs with
  | nil => intro w _; rfl
  | cons q rest ih =>
    intro w hall
    rw [applyWb_cons,
      stepWb_settled_fix rn sr er w q (hall q (List.mem_cons_self _ _))]
    exact ih w (fun g hg => hall g (List.mem_cons_of_mem _ hg))

/-- Processing the same duplicate-free groups twice equals processing them
once: the second pass finds every group settled. -/
theorem applyWb_idem (rn : String) (sr er : Nat)
    (gs : List (String × List RuleRecord)) (w : Workbook)
    (hnd : (gs.map Prod.fst).Nodup) :
    applyWb rn sr er (applyWb rn sr er w gs) gs = applyWb rn sr er w gs :=
  applyWb_settled_fix rn sr er gs _ (settled_fold_all rn sr er gs w hnd)

/-- Claim C5: in update mode, running the same rule table twice against the
same target leaves every processed worksheet with exactly the second run's
directives: existing conditional formatting is cleared before the run's
directives are added, so the second run reproduces the first run's result
exactly (same workbook, same counters) and directives never accumulate. -/
theorem apply_cf_rules_update_idempotent (rf : RulesFile) (tf : Workbook)
    (rni : String) (fr lr : Option Nat) (r1 : RunResult)
    (h : apply_cf_rules rf (some tf) rni fr lr .updateExisting = .ok r1) :
    apply_cf_rules rf (some r1.workbook) rni fr lr .updateExisting = .ok r1 := by
  obtain ⟨rn, rows, rules, wb0, hrn, hrows, hrules, hne, hwb0, hres⟩ :=
    apply_ok_inv _ _ _ _ _ _ _ h
  have hwb : Except.ok (ε := RunError) tf = .ok wb0 := hwb0
  have hwb2 : tf = wb0 := Except.ok.inj hwb
  subst hwb2
  subst hres
  simp only [apply_cf_rules, hrn, hrows, hrules, hne, initialWorkbook,
    Bool.false_eq_true, if_false, Except.ok.injEq, RunResult.mk.injEq,
    and_true, true_and]
  show applyWb rn (chooseRowRange fr lr).1 (chooseRowRange fr lr).2
      (applyWb rn (chooseRowRange fr lr).1 (chooseRowRange fr lr).2 tf
        (rulesBySheet rules)) (rulesBySheet rules)
    = applyWb rn (chooseRowRange fr lr).1 (chooseRowRange fr lr).2 tf
      (rulesBySheet rules)
  apply applyWb_idem
  rw [rulesBySheet_keys]
  exact groupKeys_nodup rules

/-- Witness for claim C5: a concrete update run over a target whose sheet
already carries a stale directive, replayed on its own output. -/
theorem apply_cf_rules_update_idempotent_witness :
    apply_cf_rules sampleRulesFile
      (some [("Sheet1",
        [{ rangeString := "Z1:Z2", formula := "=1", stopIfTrue := false,
           fill := some "00FF00", fontColor := none }])])
      "" (some 13) (some 15) .updateExisting =
      .ok
        { workbook :=
            [("Sheet1",
              [{ rangeString := "A13:C15", formula := "=A13>0", stopIfTrue := true,
                 fill := some "FF0000", fontColor := none }])]
          rulesApplied := 1
          rulesSkipped := 0
          rowNumber := "13"
          startRow := 13
          endRow := 15 }
    ∧ apply_cf_rules sampleRulesFile
        (some [("Sheet1",
          [{ rangeString := "A13:C15", formula := "=A13>0", stopIfTrue := true,
             fill := some "FF0000", fontColor := none }])])
        "" (some 13) (some 15) .updateExisting =
      .ok
        { workbook :=
            [("Sheet1",
              [{ rangeString := "A13:C15", formula := "=A13>0", stopIfTrue := true,
                 fill := some "FF0000", fontColor := none }])]
          rulesApplied := 1
          rulesSkipped := 0
          rowNumber := "13"
          startRow := 13
          endRow := 15 } :=
  ⟨rfl,
   apply_cf_rules_update_idempotent sampleRulesFile
     [("Sheet1",
       [{ rangeString := "Z1:Z2", formula := "=1", stopIfTrue := false,
          fill := some "00FF00", fontColor := none }])]
     "" (some 13) (some 15) _ rfl⟩

/-- Claim C6: the placeholder substitution value is the stripped explicit
row-number text when that is non-blank; otherwise the first-row parameter;
and when both are absent the run fails with the missing-row-specification
error, for every rules file, target and mode, before any rule table is
consulted or any workbook is produced. -/
theorem apply_cf_rules_row_number_priority (rf : RulesFile) (tf : Option Workbook)
    (rni : String) (fr lr : Option Nat) (mode : Mode) :
    (pyStrip rni ≠ "" → ∀ res, apply_cf_rules rf tf rni fr lr mode = .ok res →
        res.rowNumber = pyStrip rni)
    ∧ (∀ n : Nat, pyStrip rni = "" → fr = some n → 0 < n →
        ∀ res, apply_cf_rules rf tf rni fr lr mode = .ok res →
          res.rowNumber = toString n)
    ∧ (pyStrip rni = "" → fr = none →
        apply_cf_rules rf tf rni fr lr mode = .error .missingRowSpec) := by
  have hstrip_empty : pyStrip "" = "" := rfl
  refine ⟨?_, ?_, ?_⟩
  · intro hs res hrun
    obtain ⟨rn, rows, rules, wb0, hrn, -, -, -, -, hres⟩ :=
      apply_ok_inv _ _ _ _ _ _ _ hrun
    have hne : rni ≠ "" := fun he => hs (he ▸ hstrip_empty)
    rw [chooseRowNumber.eq_def, if_pos ⟨hne, hs⟩] at hrn
    rw [hres]
    exact (Option.some.inj hrn).symm
  · intro n hs hfr hn res hrun
    obtain ⟨rn, rows, rules, wb0, hrn, -, -, -, -, hres⟩ :=
      apply_ok_inv _ _ _ _ _ _ _ hrun
    rw [chooseRowNumber.eq_def, if_neg (by simp [hs])] at hrn
    simp only [hfr] at hrn
    rw [if_pos (show n ≠ 0 from by omega)] at hrn
    rw [hres]
    exact (Option.some.inj hrn).symm
  · intro hs hfr
    have hc : chooseRowNumber rni fr = none := by
      rw [chooseRowNumber.eq_def, if_neg (by simp [hs]), hfr]
    simp [apply_cf_rules, hc]

/-- Witness for claim C6: the explicit text 7 wins after stripping, and the
fully absent configuration fails with the missing-row-specification error
even on an empty rules file. -/
theorem apply_cf_rules_row_number_priority_witness :
    (RunResult.rowNumber
        { workbook :=
            [("Sheet1",
              [{ rangeString := "A1:C1000", formula := "=A7>0", stopIfTrue := true,
                 fill := some "FF0000", fontColor := none }])]
          rulesApplied := 1
          rulesSkipped := 0
          rowNumber := "7"
          startRow := 1
          endRow := 1000 }
      = pyStrip " 7 ")
    ∧ apply_cf_rules [] none "" none none .createNew = .error .missingRowSpec := by
  refine ⟨?_, ?_⟩
  · exact (apply_cf_rules_row_number_priority sampleRulesFile none " 7 " none none
      .createNew).1 (by decide) _ rfl
  · exact (apply_cf_rules_row_number_priority [] none "" none none
      .createNew).2.2 rfl rfl

/-- Witness for claim C10 at a concrete row carrying the token Y. -/
theorem stop_if_true_iff_Y_witness :
    ((recordOfRow [some "A", some "B", some "=1", some "Y"]).stop_if_true = true ↔
      [(some "A" : Cell), some "B", some "=1", some "Y"].getD 3 none = some "Y")
    ∧ stopFlag (some "y") = false
    ∧ stopFlag (some "") = false
    ∧ stopFlag none = false :=
  stop_if_true_iff_Y [some "A", some "B", some "=1", some "Y"] _ rfl

end CfImport
